import Mathlib

/-!
Verification of `scripts/generate_agent_metadata.py`.

The script has two parts:
* `extract_title_and_description`: a pure text heuristic producing a
  (title, description) pair from raw file text;
* `scan_section` / `main`: a directory scanner that sorts the files of each
  configured section by path, skips directories and unreadable files, and
  concatenates each section's records in a fixed section order.

Text is modelled as `List Char`.  Python string operations (`str.strip`,
`str.splitlines`, `str.startswith`, `re.sub(r'^#+\s*', ...)`,
`re.split(r"\n\s*\n", ...)`, `str.replace('\n', ' ')`) are embedded as
executable Lean functions below, following Python's documented semantics for
whitespace and line boundaries.  The two scanning loops are written with an
explicit fuel argument (instantiated with the length of the input, which is
always sufficient) so that they are structurally recursive and evaluate by
kernel reduction.
-/

/-- Python whitespace (the character class stripped by `str.strip()` and
matched by `\s` in a unicode regex): tab, LF, VT, FF, CR, FS, GS, RS, US,
space, NEL, NBSP and the unicode space separators. -/
def isPyWs (c : Char) : Bool :=
  c.toNat ∈ [0x09, 0x0a, 0x0b, 0x0c, 0x0d, 0x1c, 0x1d, 0x1e, 0x1f, 0x20,
    0x85, 0xa0, 0x1680, 0x2000, 0x2001, 0x2002, 0x2003, 0x2004, 0x2005,
    0x2006, 0x2007, 0x2008, 0x2009, 0x200a, 0x2028, 0x2029, 0x202f, 0x205f,
    0x3000]

/-- The line boundaries recognised by Python's `str.splitlines()`:
LF, VT, FF, CR, FS, GS, RS, NEL, LINE SEPARATOR, PARAGRAPH SEPARATOR
(`\r\n` is treated as a single boundary by `pySplitlinesGo`). -/
def isLineBoundary (c : Char) : Bool :=
  c.toNat ∈ [0x0a, 0x0b, 0x0c, 0x0d, 0x1c, 0x1d, 0x1e, 0x85, 0x2028, 0x2029]

/-- Drop one leading `'\n'`, used to treat `\r\n` as a single line boundary. -/
def dropLf : List Char → List Char
  | [] => []
  | c :: rest => if c = '\n' then rest else c :: rest

/-- Worker for `pySplitlines`: `cur` is the reversed current line.  The fuel
argument only makes the recursion structural; it never runs out when it is at
least the length of the list argument. -/
def pySplitlinesGo : Nat → List Char → List Char → List (List Char)
  | _, cur, [] => [cur.reverse]
  | 0, cur, l => [cur.reverse ++ l]
  | fuel + 1, cur, c :: rest =>
      if isLineBoundary c then
        let rest2 := if c = '\r' then dropLf rest else rest
        cur.reverse :: (if rest2 = [] then [] else pySplitlinesGo fuel [] rest2)
      else pySplitlinesGo fuel (c :: cur) rest

/-- Python `str.splitlines()`: split at line boundaries (with `\r\n` as one
boundary), boundary characters removed, no trailing empty line. -/
def pySplitlines (l : List Char) : List (List Char) :=
  if l = [] then [] else pySplitlinesGo l.length [] l

/-- Python `str.strip()`: remove leading and trailing whitespace. -/
def pyStrip (l : List Char) : List Char :=
  ((l.dropWhile isPyWs).reverse.dropWhile isPyWs).reverse

/-- Python `str.startswith('#')`. -/
def startsWithHash : List Char → Bool
  | [] => false
  | c :: _ => c = '#'

/-- `re.sub(r'^#+\s*', '', l).strip()` for an `l` that starts with `'#'`:
drop the leading run of `'#'` and the following whitespace, then strip. -/
def headerTitle (l : List Char) : List Char :=
  pyStrip ((l.dropWhile (fun c => c = '#')).dropWhile isPyWs)

/-- The first `for` loop of `extract_title_and_description`: the first line
whose stripped form starts with `'#'` yields
`re.sub(r'^#+\s*', '', line).strip()`. -/
def findTitle1 : List (List Char) → Option (List Char)
  | [] => none
  | line :: rest =>
      let s := pyStrip line
      if startsWithHash s then some (headerTitle s) else findTitle1 rest

/-- The fallback loop: the stripped form of the first line whose stripped
form is non-empty. -/
def findFirstNonEmpty : List (List Char) → Option (List Char)
  | [] => none
  | line :: rest =>
      let s := pyStrip line
      if s = [] then findFirstNonEmpty rest else some s

/-- `str.replace('\n', ' ')`, character by character. -/
def replNl (c : Char) : Char := if c = '\n' then ' ' else c

/-- Index of the last `'\n'` inside the leading whitespace run, if any.
This is the greedy choice the regex engine makes for `\s*` in `\n\s*\n`. -/
def lastNl : List Char → Option Nat
  | [] => none
  | c :: rest =>
      if isPyWs c then
        match lastNl rest with
        | some j => some (j + 1)
        | none => if c = '\n' then some 0 else none
      else none

/-- Length of the match of the regex `\n\s*\n` at the head of the list, if
any: a `'\n'`, then the greedy-longest whitespace run still followed by
`'\n'`. -/
def matchSep : List Char → Option Nat
  | [] => none
  | c :: rest =>
      if c = '\n' then (lastNl rest).map (fun j => j + 2) else none

/-- Worker for `pySplitParas`: scan for the leftmost `\n\s*\n` match; `cur`
is the reversed current paragraph.  Fuel as in `pySplitlinesGo`. -/
def pySplitParasAux : Nat → List Char → List Char → List (List Char)
  | _, cur, [] => [cur.reverse]
  | 0, cur, l => [cur.reverse ++ l]
  | fuel + 1, cur, c :: rest =>
      match matchSep (c :: rest) with
      | some n => cur.reverse :: pySplitParasAux fuel [] ((c :: rest).drop n)
      | none => pySplitParasAux fuel (c :: cur) rest

/-- `re.split(r"\n\s*\n", l)`. -/
def pySplitParas (l : List Char) : List (List Char) :=
  pySplitParasAux l.length [] l

/-- The description loop of `extract_title_and_description`: the first
paragraph which, stripped, is non-empty and does not start with `'#'`,
with `'\n'` replaced by `' '` and the result stripped. -/
def findDesc : List (List Char) → Option (List Char)
  | [] => none
  | p :: rest =>
      let q := pyStrip p
      if q = [] then findDesc rest
      else if startsWithHash q then findDesc rest
      else some (pyStrip (q.map replNl))

/-- `extract_title_and_description` from `scripts/generate_agent_metadata.py`:
title from the first markdown-header line (falling back, when there is no
header line or the header strips to the empty title, to the first non-empty
line), description from the first non-header paragraph. -/
def extract_title_and_description (text : List Char) : List Char × List Char :=
  let lines := pySplitlines text
  let title :=
    match findTitle1 lines with
    | some t => if t = [] then findFirstNonEmpty lines else some t
    | none => findFirstNonEmpty lines
  let desc := findDesc (pySplitParas (pyStrip text))
  (title.getD [], desc.getD [])

example : extract_title_and_description "# Hello World\n\nThis is a test.\nStill same paragraph.\n\nSecond paragraph.".data =
    ("Hello World".data, "This is a test. Still same paragraph.".data) := by decide

example : extract_title_and_description "Just a line of text".data =
    ("Just a line of text".data, "Just a line of text".data) := by decide

example : extract_title_and_description [] = ([], []) := by decide

example : extract_title_and_description "#".data = ("#".data, []) := by decide

example : extract_title_and_description "# T\n\n  # sub\n\nbody".data =
    ("T".data, "body".data) := by decide

example : extract_title_and_description "hello\n# \nworld".data =
    ("hello".data, "hello #  world".data) := by decide

example : extract_title_and_description "a\n\n \nx".data = ("a".data, "a".data) := by decide

example : extract_title_and_description "a\r\n\r\nb".data = ("a".data, "a".data) := by decide

example : extract_title_and_description "a\x0b\n\nb".data = ("a".data, "a".data) := by decide

example : extract_title_and_description "a\n \x0bx".data = ("a".data, "a  \x0bx".data) := by decide

example : extract_title_and_description "# #".data = ("#".data, []) := by decide

example : extract_title_and_description "  #x\n\np".data = ("x".data, "p".data) := by decide

example : pySplitlines "a\x0b\n\nb".data = ["a".data, [], [], "b".data] := by decide

example : pySplitlines "x\x1c\x1dy".data = ["x".data, [], "y".data] := by decide

/-! ## The scanner (`scan_section` and `main`)

The filesystem below a section directory is modelled as an optional list of
entries (`none` models a directory that does not exist).  Each entry carries
its path relative to the repository root, whether it is a directory, and
`some text` when reading it as text succeeds (`none` models any read
failure: decode error, permission error, binary content).  `scan_section`
sorts the entries by path — `sorted(path.glob('**/*'))` — and builds one
record per readable non-directory entry, skipping the rest, exactly as the
`for` loop with its two `continue`-like branches does. -/

/-- One filesystem entry under a section directory. -/
structure FileEntry where
  path : List Char
  isDir : Bool
  content : Option (List Char)
deriving DecidableEq

/-- The metadata record built for one successfully read file. -/
structure Record where
  path : List Char
  type : List Char
  filename : List Char
  title : List Char
  description : List Char
deriving DecidableEq

/-- Lexicographic order on paths (the order `sorted` uses on paths). -/
def pathLe : List Char → List Char → Bool
  | [], _ => true
  | _ :: _, [] => false
  | a :: as, b :: bs =>
      if a.toNat < b.toNat then true
      else if b.toNat < a.toNat then false
      else pathLe as bs

/-- Order on entries: by path. -/
def entryLe (e1 e2 : FileEntry) : Prop := pathLe e1.path e2.path = true

instance : DecidableRel entryLe := fun e1 e2 =>
  inferInstanceAs (Decidable (pathLe e1.path e2.path = true))

/-- `p.name`: the base name, everything after the last `'/'`. -/
def baseName (p : List Char) : List Char :=
  (p.reverse.takeWhile (fun c => ¬ c = '/')).reverse

/-- The body of the scanning loop for one entry: `none` when the entry is a
directory or cannot be read as text, otherwise the record built from the
extracted title and description. -/
def entryRecord (name : List Char) (e : FileEntry) : Option Record :=
  if e.isDir then none
  else
    match e.content with
    | none => none
    | some text =>
        let td := extract_title_and_description text
        some ⟨e.path, name, baseName e.path, td.1, td.2⟩

/-- `scan_section`: an absent directory contributes no records; otherwise
scan the entries in sorted path order, skipping directories and unreadable
files. -/
def scan_section (name : List Char) (dir : Option (List FileEntry)) :
    List Record :=
  match dir with
  | none => []
  | some entries => (entries.insertionSort entryLe).filterMap (entryRecord name)

/-- The three configured section directories, in declaration order
(`prompts`, `toolsets`, `chatmodes`); `none` models an absent directory. -/
structure SectionsFS where
  prompts : Option (List FileEntry)
  toolsets : Option (List FileEntry)
  chatmodes : Option (List FileEntry)

/-- The output document: a generation timestamp and the collected records. -/
structure OutputDoc where
  generated_at : List Char
  items : List Record

/-- The body of `main`: concatenate the section scans in declaration order
and pair them with the generation timestamp. -/
def mainScan (fs : SectionsFS) (now : List Char) : OutputDoc :=
  { generated_at := now
    items :=
      scan_section "prompts".data fs.prompts ++
      scan_section "toolsets".data fs.toolsets ++
      scan_section "chatmodes".data fs.chatmodes }

example :
    scan_section "prompts".data
      (some [⟨"b.md".data, false, some "# B\n\nbody b".data⟩,
             ⟨"a.md".data, false, some "hello".data⟩,
             ⟨"sub".data, true, none⟩,
             ⟨"c.bin".data, false, none⟩]) =
    [⟨"a.md".data, "prompts".data, "a.md".data, "hello".data, "hello".data⟩,
     ⟨"b.md".data, "prompts".data, "b.md".data, "B".data, "body b".data⟩] := by
  decide


/-- The description as the specification words it: split the trimmed text
into paragraphs on blank-line separators, take the first paragraph that does
not begin with a header marker (`'#'` after trimming, the spec's notion of a
header), replace each internal newline by a single space and trim.  Empty
when no paragraph qualifies. -/
def descSpec (text : List Char) : List Char :=
  match (pySplitParas (pyStrip text)).find?
      (fun p => !startsWithHash (pyStrip p)) with
  | some p => pyStrip (p.map replNl)
  | none => []

/-! ## Basic facts about the string primitives -/

theorem pyStrip_eq_nil_iff {l : List Char} :
    pyStrip l = [] ↔ ∀ c ∈ l, isPyWs c = true := by
  unfold pyStrip
  rw [List.reverse_eq_nil_iff, List.dropWhile_eq_nil_iff]
  constructor
  · intro h c hc
    rw [← List.takeWhile_append_dropWhile isPyWs l] at hc
    rcases List.mem_append.mp hc with ht | ht
    · exact List.mem_takeWhile_imp ht
    · exact h c (by simpa using ht)
  · intro h c hc
    exact h c ((List.dropWhile_sublist isPyWs).subset (by simpa using hc))

theorem pyStrip_subset {l : List Char} : pyStrip l ⊆ l := by
  intro c hc
  unfold pyStrip at hc
  rw [List.mem_reverse] at hc
  have := (List.dropWhile_sublist isPyWs).subset hc
  rw [List.mem_reverse] at this
  exact (List.dropWhile_sublist isPyWs).subset this

theorem dropWhile_head_false {p : Char → Bool} {l : List Char} {c : Char}
    {r : List Char} (h : l.dropWhile p = c :: r) : p c = false := by
  induction l with
  | nil => cases h
  | cons a t ih =>
    rw [List.dropWhile_cons] at h
    by_cases ha : p a = true
    · rw [if_pos ha] at h; exact ih h
    · rw [if_neg ha] at h
      cases h
      simpa using ha

/-- The stripped string starts with a non-whitespace character. -/
theorem pyStrip_head_false {l : List Char} {c : Char} {r : List Char}
    (h : pyStrip l = c :: r) : isPyWs c = false := by
  unfold pyStrip at h
  set d := l.dropWhile isPyWs with hd
  have hsfx : d.reverse.dropWhile isPyWs <:+ d.reverse := List.dropWhile_suffix _
  have hpfx : (d.reverse.dropWhile isPyWs).reverse <+: d := by
    have := (@List.reverse_suffix Char
      ((d.reverse.dropWhile isPyWs).reverse) d).mp (by simpa using hsfx)
    exact this
  rw [h] at hpfx
  rcases hpfx with ⟨t, ht⟩
  exact dropWhile_head_false (by rw [← hd, ← ht]; rfl)

/-- The stripped string ends with a non-whitespace character. -/
theorem pyStrip_last {l : List Char} (h : pyStrip l ≠ []) :
    ∃ m c, pyStrip l = m ++ [c] ∧ isPyWs c = false := by
  cases he : (l.dropWhile isPyWs).reverse.dropWhile isPyWs with
  | nil => exact absurd (by unfold pyStrip; rw [he]; rfl) h
  | cons c r =>
    refine ⟨r.reverse, c, ?_, dropWhile_head_false he⟩
    unfold pyStrip
    rw [he]
    simp

theorem pyStrip_idem (l : List Char) : pyStrip (pyStrip l) = pyStrip l := by
  by_cases h : pyStrip l = []
  · rw [h]; rfl
  · rcases pyStrip_last h with ⟨m, d, hm, hd⟩
    have hhead : ∃ c r, pyStrip l = c :: r := by
      cases hs : pyStrip l with
      | nil => exact absurd hs h
      | cons c r => exact ⟨c, r, rfl⟩
    rcases hhead with ⟨c, r, hs⟩
    have hc : isPyWs c = false := pyStrip_head_false hs
    show (((pyStrip l).dropWhile isPyWs).reverse.dropWhile isPyWs).reverse =
      pyStrip l
    have h1 : (pyStrip l).dropWhile isPyWs = pyStrip l := by
      rw [hs, List.dropWhile_cons, hc]; simp
    rw [h1]
    have h2 : (pyStrip l).reverse.dropWhile isPyWs = (pyStrip l).reverse := by
      rw [hm, List.reverse_append]
      simp only [List.reverse_cons, List.reverse_nil, List.nil_append,
        List.singleton_append, List.dropWhile_cons, hd]
      simp
    rw [h2, List.reverse_reverse]

theorem takeWhile_eq_nil_of_strip (l : List Char) :
    (pyStrip l).takeWhile isPyWs = [] := by
  cases hs : pyStrip l with
  | nil => simp
  | cons c r => simp [List.takeWhile_cons, pyStrip_head_false hs]

/-- Line boundary characters are whitespace. -/
theorem boundary_ws {c : Char} (h : isLineBoundary c = true) :
    isPyWs c = true := by
  unfold isLineBoundary at h
  unfold isPyWs
  simp only [List.mem_cons, decide_eq_true_eq, List.not_mem_nil, or_false,
    decide_eq_true_eq] at h ⊢
  omega

/-- `'\n'` is a line boundary and whitespace. -/
theorem nl_boundary : isLineBoundary '\n' = true := by decide

theorem nl_ws : isPyWs '\n' = true := by decide

/-! ## Facts about `pySplitlines` -/

/-- Lines produced by `splitlines` contain no line boundary characters. -/
theorem splitlinesGo_no_boundary (fuel : Nat) :
    ∀ cur l, l.length ≤ fuel → (∀ c ∈ cur, isLineBoundary c = false) →
      ∀ line ∈ pySplitlinesGo fuel cur l, ∀ c ∈ line,
        isLineBoundary c = false := by
  induction fuel with
  | zero =>
    intro cur l hlen hcur line hline c hc
    interval_cases hl : l.length
    rw [List.length_eq_zero] at hl
    subst hl
    simp only [pySplitlinesGo, List.mem_singleton] at hline
    subst hline
    exact hcur c (by simpa using hc)
  | succ fuel ih =>
    intro cur l hlen hcur line hline c hc
    cases l with
    | nil =>
      simp only [pySplitlinesGo, List.mem_singleton] at hline
      subst hline
      exact hcur c (by simpa using hc)
    | cons a rest =>
      simp only [pySplitlinesGo] at hline
      by_cases hb : isLineBoundary a = true
      · rw [if_pos hb] at hline
        rcases List.mem_cons.mp hline with hline | hline
        · subst hline
          exact hcur c (by simpa using hc)
        · set rest2 := if a = '\r' then dropLf rest else rest with hrest2
          have hlen2 : rest2.length ≤ fuel := by
            have : rest2.length ≤ rest.length := by
              rw [hrest2]
              split
              · cases rest with
                | nil => simp [dropLf]
                | cons b t => simp only [dropLf]; split <;> simp
              · exact Nat.le_refl _
            simp only [List.length_cons] at hlen
            omega
          by_cases hr2 : rest2 = []
          · rw [if_pos hr2] at hline; cases hline
          · rw [if_neg hr2] at hline
            exact ih [] rest2 hlen2 (by simp) line hline c hc
      · rw [if_neg hb] at hline
        refine ih (a :: cur) rest (by simp at hlen; omega) ?_ line hline c hc
        intro x hx
        rcases List.mem_cons.mp hx with hx | hx
        · subst hx; simpa using hb
        · exact hcur x hx

theorem splitlines_no_boundary {text : List Char} {line : List Char}
    (hline : line ∈ pySplitlines text) {c : Char} (hc : c ∈ line) :
    isLineBoundary c = false := by
  unfold pySplitlines at hline
  by_cases ht : text = []
  · rw [if_pos ht] at hline; cases hline
  · rw [if_neg ht] at hline
    exact splitlinesGo_no_boundary text.length [] text (Nat.le_refl _)
      (by simp) line hline c hc

/-- If every line of `splitlines` is pure whitespace, the whole text is. -/
theorem splitlinesGo_all_ws (fuel : Nat) :
    ∀ cur l, l.length ≤ fuel →
      (∀ line ∈ pySplitlinesGo fuel cur l, ∀ c ∈ line, isPyWs c = true) →
      (∀ c ∈ cur, isPyWs c = true) ∧ (∀ c ∈ l, isPyWs c = true) := by
  induction fuel with
  | zero =>
    intro cur l hlen hall
    interval_cases hl : l.length
    rw [List.length_eq_zero] at hl
    subst hl
    refine ⟨?_, by simp⟩
    intro c hc
    exact hall cur.reverse (by simp [pySplitlinesGo]) c (by simpa using hc)
  | succ fuel ih =>
    intro cur l hlen hall
    cases l with
    | nil =>
      refine ⟨?_, by simp⟩
      intro c hc
      exact hall cur.reverse (by simp [pySplitlinesGo]) c (by simpa using hc)
    | cons a rest =>
      simp only [pySplitlinesGo] at hall
      by_cases hb : isLineBoundary a = true
      · simp only [if_pos hb] at hall
        have hcur : ∀ c ∈ cur, isPyWs c = true := by
          intro c hc
          exact hall cur.reverse (List.mem_cons_self _ _) c (by simpa using hc)
        refine ⟨hcur, ?_⟩
        set rest2 := if a = '\r' then dropLf rest else rest with hrest2
        have hrest : ∀ c ∈ rest2, isPyWs c = true := by
          by_cases hr2 : rest2 = []
          · rw [hr2]; simp
          · rw [if_neg hr2] at hall
            have hlen2 : rest2.length ≤ fuel := by
              have : rest2.length ≤ rest.length := by
                rw [hrest2]
                split
                · cases rest with
                  | nil => simp [dropLf]
                  | cons b t => simp only [dropLf]; split <;> simp
                · exact Nat.le_refl _
              simp only [List.length_cons] at hlen
              omega
            exact (ih [] rest2 hlen2 (fun line hl => hall line
              (List.mem_cons_of_mem _ hl))).2
        intro c hc
        rcases List.mem_cons.mp hc with hc | hc
        · subst hc; exact boundary_ws hb
        · by_cases hr : a = '\r'
          · rw [hrest2, if_pos hr] at hrest
            cases rest with
            | nil => cases hc
            | cons b t =>
              simp only [dropLf] at hrest
              by_cases hbn : b = '\n'
              · rcases List.mem_cons.mp hc with hc | hc
                · subst hc hbn; exact nl_ws
                · exact hrest c (by rw [if_pos hbn]; exact hc)
              · exact hrest c (by rw [if_neg hbn]; exact hc)
          · rw [hrest2, if_neg hr] at hrest
            exact hrest c hc
      · simp only [if_neg hb] at hall
        have := ih (a :: cur) rest (by simp at hlen; omega) hall
        refine ⟨fun c hc => this.1 c (List.mem_cons_of_mem _ hc), ?_⟩
        intro c hc
        rcases List.mem_cons.mp hc with hc | hc
        · subst hc; exact this.1 c (List.mem_cons_self _ _)
        · exact this.2 c hc

theorem splitlines_all_ws {text : List Char}
    (h : ∀ line ∈ pySplitlines text, pyStrip line = []) :
    ∀ c ∈ text, isPyWs c = true := by
  by_cases ht : text = []
  · rw [ht]; simp
  · have := splitlinesGo_all_ws text.length [] text (Nat.le_refl _) ?_
    · exact this.2
    · intro line hline c hc
      have := h line (by unfold pySplitlines; rw [if_neg ht]; exact hline)
      exact pyStrip_eq_nil_iff.mp this c hc

/-! ## Facts about the title loops -/

theorem findTitle1_eq_none {lines : List (List Char)}
    (h : ∀ line ∈ lines, startsWithHash (pyStrip line) = false) :
    findTitle1 lines = none := by
  induction lines with
  | nil => rfl
  | cons line rest ih =>
    simp only [findTitle1]
    rw [h line (List.mem_cons_self _ _)]
    exact ih fun x hx => h x (List.mem_cons_of_mem _ hx)

theorem findFirstNonEmpty_eq_find (lines : List (List Char)) :
    findFirstNonEmpty lines =
      (lines.find? fun x => !(pyStrip x).isEmpty).map pyStrip := by
  induction lines with
  | nil => rfl
  | cons line rest ih =>
    simp only [findFirstNonEmpty, List.find?_cons]
    by_cases hs : pyStrip line = []
    · rw [if_pos hs]
      have : (!(pyStrip line).isEmpty) = false := by rw [hs]; rfl
      rw [this]
      exact ih
    · rw [if_neg hs]
      have : (!(pyStrip line).isEmpty) = true := by
        cases he : pyStrip line with
        | nil => exact absurd he hs
        | cons c r => rfl
      rw [this]
      rfl

theorem findTitle1_of_first {lines : List (List Char)} {l : List Char}
    (h1 : lines.find? (fun x => !(pyStrip x).isEmpty) = some l)
    (h2 : startsWithHash (pyStrip l) = true) :
    findTitle1 lines = some (headerTitle (pyStrip l)) := by
  induction lines with
  | nil => cases h1
  | cons line rest ih =>
    rw [List.find?_cons] at h1
    by_cases hs : pyStrip line = []
    · have hp : (!(pyStrip line).isEmpty) = false := by rw [hs]; rfl
      rw [hp] at h1
      simp only [findTitle1]
      rw [hs]
      have : startsWithHash [] = false := rfl
      rw [this]
      exact ih h1
    · have hp : (!(pyStrip line).isEmpty) = true := by
        cases he : pyStrip line with
        | nil => exact absurd he hs
        | cons c r => rfl
      rw [hp] at h1
      cases h1
      simp only [findTitle1]
      rw [h2]
      rfl

theorem findTitle1_mem {lines : List (List Char)} {t : List Char}
    (h : findTitle1 lines = some t) :
    ∃ line ∈ lines, startsWithHash (pyStrip line) = true ∧
      t = headerTitle (pyStrip line) := by
  induction lines with
  | nil => cases h
  | cons line rest ih =>
    simp only [findTitle1] at h
    by_cases hs : startsWithHash (pyStrip line) = true
    · rw [if_pos hs] at h
      cases h
      exact ⟨line, List.mem_cons_self _ _, hs, rfl⟩
    · rw [if_neg hs] at h
      rcases ih h with ⟨x, hx, hh, ht⟩
      exact ⟨x, List.mem_cons_of_mem _ hx, hh, ht⟩

theorem findFirstNonEmpty_mem {lines : List (List Char)} {t : List Char}
    (h : findFirstNonEmpty lines = some t) :
    ∃ line ∈ lines, t = pyStrip line := by
  induction lines with
  | nil => cases h
  | cons line rest ih =>
    simp only [findFirstNonEmpty] at h
    by_cases hs : pyStrip line = []
    · rw [if_pos hs] at h
      rcases ih h with ⟨x, hx, ht⟩
      exact ⟨x, List.mem_cons_of_mem _ hx, ht⟩
    · rw [if_neg hs] at h
      cases h
      exact ⟨line, List.mem_cons_self _ _, rfl⟩

theorem findDesc_mem {ps : List (List Char)} {d : List Char}
    (h : findDesc ps = some d) :
    ∃ p ∈ ps, startsWithHash (pyStrip p) = false ∧ pyStrip p ≠ [] ∧
      d = pyStrip ((pyStrip p).map replNl) := by
  induction ps with
  | nil => cases h
  | cons p rest ih =>
    simp only [findDesc] at h
    by_cases hs : pyStrip p = []
    · rw [if_pos hs] at h
      rcases ih h with ⟨x, hx, h1, h2, h3⟩
      exact ⟨x, List.mem_cons_of_mem _ hx, h1, h2, h3⟩
    · rw [if_neg hs] at h
      by_cases hh : startsWithHash (pyStrip p) = true
      · rw [if_pos hh] at h
        rcases ih h with ⟨x, hx, h1, h2, h3⟩
        exact ⟨x, List.mem_cons_of_mem _ hx, h1, h2, h3⟩
      · rw [if_neg hh] at h
        cases h
        exact ⟨p, List.mem_cons_self _ _, Bool.not_eq_true _ ▸ hh, hs, rfl⟩

/-! ## Facts about the paragraph splitter -/

theorem lastNl_none_no_nl {rest : List Char} (h : lastNl rest = none) :
    '\n' ∉ rest.takeWhile isPyWs := by
  induction rest with
  | nil => simp
  | cons c t ih =>
    simp only [lastNl] at h
    by_cases hw : isPyWs c = true
    · rw [if_pos hw] at h
      cases hj : lastNl t with
      | some j => rw [hj] at h; cases h
      | none =>
        rw [hj] at h
        have hc : ¬ c = '\n' := by
          intro hc
          rw [if_pos hc] at h
          cases h
        simp only [List.takeWhile_cons, hw, if_true]
        intro hx
        rcases List.mem_cons.mp hx with hx1 | hx1
        · exact hc hx1.symm
        · exact ih hj hx1
    · simp only [Bool.not_eq_true] at hw
      simp [List.takeWhile_cons, hw]

theorem lastNl_some {rest : List Char} {j : Nat} (h : lastNl rest = some j) :
    j < rest.length ∧ (∀ c ∈ rest.take (j + 1), isPyWs c = true) ∧
      '\n' ∉ (rest.drop (j + 1)).takeWhile isPyWs := by
  induction rest generalizing j with
  | nil => cases h
  | cons c t ih =>
    simp only [lastNl] at h
    by_cases hw : isPyWs c = true
    · rw [if_pos hw] at h
      cases hj : lastNl t with
      | some j' =>
        rw [hj] at h
        cases h
        rcases ih hj with ⟨h1, h2, h3⟩
        refine ⟨by simp; omega, ?_, ?_⟩
        · intro x hx
          rw [List.take_succ_cons] at hx
          rcases List.mem_cons.mp hx with hx1 | hx1
          · subst hx1; exact hw
          · exact h2 x hx1
        · rw [List.drop_succ_cons]
          exact h3
      | none =>
        rw [hj] at h
        by_cases hc : c = '\n'
        · rw [if_pos hc] at h
          cases h
          refine ⟨by simp, ?_, ?_⟩
          · intro x hx
            rw [List.take_succ_cons, List.take_zero] at hx
            rcases List.mem_cons.mp hx with hx1 | hx1
            · subst hx1; exact hw
            · cases hx1
          · rw [List.drop_succ_cons, List.drop_zero]
            exact lastNl_none_no_nl hj
        · rw [if_neg hc] at h
          cases h
    · rw [if_neg hw] at h
      cases h

theorem matchSep_some {l : List Char} {n : Nat} (h : matchSep l = some n) :
    2 ≤ n ∧ n ≤ l.length ∧ l.head? = some '\n' ∧
      (∀ c ∈ l.take n, isPyWs c = true) ∧
      '\n' ∉ (l.drop n).takeWhile isPyWs := by
  cases l with
  | nil => cases h
  | cons c rest =>
    simp only [matchSep] at h
    by_cases hc : c = '\n'
    · rw [if_pos hc] at h
      cases hj : lastNl rest with
      | none => rw [hj] at h; cases h
      | some j =>
        rw [hj] at h
        simp only [Option.map_some'] at h
        cases h
        rcases lastNl_some hj with ⟨h1, h2, h3⟩
        refine ⟨by omega, by simp; omega, by simp [hc], ?_, ?_⟩
        · intro x hx
          rw [show j + 2 = (j + 1) + 1 from rfl, List.take_succ_cons] at hx
          rcases List.mem_cons.mp hx with hx1 | hx1
          · subst hx1; rw [hc]; exact nl_ws
          · exact h2 x hx1
        · rw [show j + 2 = (j + 1) + 1 from rfl, List.drop_succ_cons]
          exact h3
    · rw [if_neg hc] at h
      cases h

theorem parasAux_strip (fuel : Nat) :
    ∀ cur l, l.length ≤ fuel →
      ((∀ c ∈ cur, isPyWs c = true) → '\n' ∉ l.takeWhile isPyWs) →
      (l = [] → ∃ c ∈ cur, isPyWs c = false) →
      (l ≠ [] → ∃ m c, l = m ++ [c] ∧ isPyWs c = false) →
      ∀ p ∈ pySplitParasAux fuel cur l, pyStrip p ≠ [] := by
  induction fuel with
  | zero =>
    intro cur l hlen h1 h2 hend p hp
    interval_cases hl : l.length
    rw [List.length_eq_zero] at hl
    subst hl
    simp only [pySplitParasAux, List.mem_singleton] at hp
    subst hp
    rcases h2 rfl with ⟨c, hc, hws⟩
    intro hnil
    have := pyStrip_eq_nil_iff.mp hnil c (by simpa using hc)
    rw [this] at hws
    cases hws
  | succ fuel ih =>
    intro cur l hlen h1 h2 hend p hp
    cases l with
    | nil =>
      simp only [pySplitParasAux, List.mem_singleton] at hp
      subst hp
      rcases h2 rfl with ⟨c, hc, hws⟩
      intro hnil
      have := pyStrip_eq_nil_iff.mp hnil c (by simpa using hc)
      rw [this] at hws
      cases hws
    | cons a rest =>
      rcases hend (by simp) with ⟨m, z, hmz, hzws⟩
      have hlm : rest.length = m.length := by
        have := congrArg List.length hmz
        simp only [List.length_cons, List.length_append, List.length_nil,
          List.length_singleton] at this
        omega
      cases hm : matchSep (a :: rest) with
      | some n =>
        rcases matchSep_some hm with ⟨hn2, hnle, hhead, htake, hdrop⟩
        simp only [List.length_cons] at hnle
        have ha : a = '\n' := by
          simp only [List.head?_cons, Option.some.injEq] at hhead
          exact hhead
        simp only [pySplitParasAux, hm] at hp
        rcases List.mem_cons.mp hp with hp | hp
        · subst hp
          have hcur : ∃ c ∈ cur, isPyWs c = false := by
            by_contra hall
            push_neg at hall
            have hcall : ∀ c ∈ cur, isPyWs c = true := by
              intro c hc
              have hne := hall c hc
              cases hx : isPyWs c with
              | false => exact absurd hx hne
              | true => rfl
            have hmem := h1 hcall
            simp only [List.takeWhile_cons, ha, nl_ws, if_true] at hmem
            exact hmem (List.mem_cons_self _ _)
          rcases hcur with ⟨c, hc, hws⟩
          intro hnil
          have := pyStrip_eq_nil_iff.mp hnil c (by simpa using hc)
          rw [this] at hws
          cases hws
        · have hdropne : (a :: rest).drop n ≠ [] := by
            intro hd
            have hlen2 : (a :: rest).length ≤ n := List.drop_eq_nil_iff.mp hd
            simp only [List.length_cons] at hlen2
            have hneq : n = rest.length + 1 := by omega
            have hzee : isPyWs z = true := by
              refine htake z ?_
              have : (a :: rest).length ≤ n := by
                simp only [List.length_cons]; omega
              rw [List.take_of_length_le this, hmz]
              simp
            rw [hzee] at hzws
            cases hzws
          have hnlt : n ≤ rest.length := by
            by_contra hgt
            push_neg at hgt
            refine hdropne (List.drop_eq_nil_iff.mpr ?_)
            simp only [List.length_cons]
            omega
          refine ih [] ((a :: rest).drop n) ?_ ?_ ?_ ?_ p hp
          · rw [List.length_drop]
            simp only [List.length_cons] at hlen ⊢
            omega
          · intro _
            exact hdrop
          · intro hd
            exact absurd hd hdropne
          · intro _
            refine ⟨m.drop n, z, ?_, hzws⟩
            rw [hmz, List.drop_append_of_le_length (by omega)]
      | none =>
        simp only [pySplitParasAux, hm] at hp
        refine ih (a :: cur) rest ?_ ?_ ?_ ?_ p hp
        · simp only [List.length_cons] at hlen
          omega
        · intro hall
          have ha : isPyWs a = true := hall a (List.mem_cons_self _ _)
          have hmem := h1 fun c hc => hall c (List.mem_cons_of_mem _ hc)
          simp only [List.takeWhile_cons, ha, if_true] at hmem
          intro hx
          exact hmem (List.mem_cons_of_mem _ hx)
        · intro hrest
          subst hrest
          have hma : m = [] ∧ z = a := by
            cases m with
            | nil => simpa using hmz.symm
            | cons b t =>
              exfalso
              simp only [List.length_nil] at hlm
              simp at hlm
          rcases hma with ⟨_, hz⟩
          exact ⟨a, List.mem_cons_self _ _, hz ▸ hzws⟩
        · intro hrest
          cases m with
          | nil =>
            exfalso
            simp only [List.nil_append] at hmz
            cases hmz
            exact hrest rfl
          | cons b t =>
            refine ⟨t, z, ?_, hzws⟩
            simp only [List.cons_append, List.cons.injEq] at hmz
            exact hmz.2

theorem paras_strip {text : List Char} (h : pyStrip text ≠ []) :
    ∀ p ∈ pySplitParas (pyStrip text), pyStrip p ≠ [] := by
  refine parasAux_strip (pyStrip text).length [] (pyStrip text)
    (Nat.le_refl _) ?_ ?_ ?_
  · intro _
    rw [takeWhile_eq_nil_of_strip]
    simp
  · intro h0
    exact absurd h0 h
  · intro _
    exact pyStrip_last h

/-! ## Newline replacement and the description -/

theorem ws_replNl (c : Char) : isPyWs (replNl c) = isPyWs c := by
  unfold replNl
  by_cases hc : c = '\n'
  · rw [if_pos hc, hc]
    decide
  · rw [if_neg hc]

theorem pyStrip_map_replNl (l : List Char) :
    pyStrip (l.map replNl) = (pyStrip l).map replNl := by
  have hcomp : (isPyWs ∘ replNl) = isPyWs := funext ws_replNl
  show (((l.map replNl).dropWhile isPyWs).reverse.dropWhile isPyWs).reverse =
    (pyStrip l).map replNl
  rw [List.dropWhile_map, hcomp, ← List.map_reverse, List.dropWhile_map,
    hcomp, ← List.map_reverse]
  rfl

theorem pyStrip_map_strip (p : List Char) :
    pyStrip ((pyStrip p).map replNl) = pyStrip (p.map replNl) := by
  rw [pyStrip_map_replNl, pyStrip_map_replNl, pyStrip_idem]

theorem nl_not_mem_map_replNl (l : List Char) : '\n' ∉ l.map replNl := by
  intro h
  rcases List.mem_map.mp h with ⟨c, _, hc⟩
  unfold replNl at hc
  by_cases hcn : c = '\n'
  · rw [if_pos hcn] at hc
    cases hc
  · rw [if_neg hcn] at hc
    exact hcn hc

theorem findDesc_eq {ps : List (List Char)} (h : ∀ p ∈ ps, pyStrip p ≠ []) :
    findDesc ps = (ps.find? fun p => !startsWithHash (pyStrip p)).map
      (fun p => pyStrip (p.map replNl)) := by
  induction ps with
  | nil => rfl
  | cons p rest ih =>
    have hp := h p (List.mem_cons_self _ _)
    simp only [findDesc, List.find?_cons]
    rw [if_neg hp]
    cases hsw : startsWithHash (pyStrip p) with
    | true =>
      rw [if_pos rfl]
      exact ih fun x hx => h x (List.mem_cons_of_mem _ hx)
    | false =>
      rw [if_neg (by simp)]
      rw [pyStrip_map_strip]
      rfl

/-! ## Facts about the scanner -/

theorem pathLe_total : ∀ a b, pathLe a b = true ∨ pathLe b a = true := by
  intro a
  induction a with
  | nil => intro b; left; rfl
  | cons x as ih =>
    intro b
    cases b with
    | nil => right; rfl
    | cons y bs =>
      simp only [pathLe]
      by_cases h1 : x.toNat < y.toNat
      · left; rw [if_pos h1]
      · by_cases h2 : y.toNat < x.toNat
        · right; rw [if_pos h2]
        · rcases ih bs with h | h
          · left
            rw [if_neg h1, if_neg h2]
            exact h
          · right
            rw [if_neg h2, if_neg h1]
            exact h

theorem pathLe_trans :
    ∀ a b c, pathLe a b = true → pathLe b c = true → pathLe a c = true := by
  intro a
  induction a with
  | nil => intro b c _ _; rfl
  | cons x as ih =>
    intro b c hab hbc
    cases b with
    | nil => simp only [pathLe] at hab; cases hab
    | cons y bs =>
      cases c with
      | nil => simp only [pathLe] at hbc; cases hbc
      | cons z cs =>
        simp only [pathLe] at hab hbc ⊢
        by_cases h1 : x.toNat < y.toNat
        · rw [if_pos h1] at hab
          by_cases h2 : y.toNat < z.toNat
          · rw [if_pos (by omega)]
          · rw [if_neg h2] at hbc
            by_cases h3 : z.toNat < y.toNat
            · rw [if_pos h3] at hbc
              cases hbc
            · rw [if_pos (by omega)]
        · rw [if_neg h1] at hab
          by_cases h4 : y.toNat < x.toNat
          · rw [if_pos h4] at hab
            cases hab
          · rw [if_neg h4] at hab
            by_cases h2 : y.toNat < z.toNat
            · rw [if_pos (by omega)]
            · rw [if_neg h2] at hbc
              by_cases h3 : z.toNat < y.toNat
              · rw [if_pos h3] at hbc
                cases hbc
              · rw [if_neg h3] at hbc
                rw [if_neg (by omega), if_neg (by omega)]
                exact ih bs cs hab hbc

theorem length_filterMap {α β : Type} (f : α → Option β) (l : List α) :
    (l.filterMap f).length = l.countP (fun a => (f a).isSome) := by
  induction l with
  | nil => rfl
  | cons a t ih =>
    rw [List.filterMap_cons, List.countP_cons]
    cases hf : f a with
    | none => simpa using ih
    | some b => simp [ih]

theorem entryRecord_path {name : List Char} {e : FileEntry} {r : Record}
    (h : entryRecord name e = some r) : r.path = e.path := by
  unfold entryRecord at h
  by_cases hd : e.isDir
  · rw [if_pos hd] at h
    cases h
  · rw [if_neg hd] at h
    cases hc : e.content with
    | none => rw [hc] at h; cases h
    | some text =>
      rw [hc] at h
      cases h
      rfl

theorem entryRecord_isSome (name : List Char) (e : FileEntry) :
    (entryRecord name e).isSome = (!e.isDir && e.content.isSome) := by
  unfold entryRecord
  by_cases hd : e.isDir
  · rw [if_pos hd, hd]
    rfl
  · rw [if_neg hd]
    cases hc : e.content with
    | none =>
      simp only [Bool.not_eq_true] at hd
      rw [hd]
      rfl
    | some text =>
      simp only [Bool.not_eq_true] at hd
      rw [hd]
      rfl

theorem entryRecord_some_of (name : List Char) {e : FileEntry}
    (hd : e.isDir = false) {text : List Char} (hc : e.content = some text) :
    entryRecord name e = some
      ⟨e.path, name, baseName e.path, (extract_title_and_description text).1,
        (extract_title_and_description text).2⟩ := by
  unfold entryRecord
  rw [if_neg (by rw [hd]; simp), hc]

/-! ## Unfolding the extractor -/

theorem extract_fst (text : List Char) :
    (extract_title_and_description text).1 =
      (match findTitle1 (pySplitlines text) with
       | some t =>
           if t = [] then findFirstNonEmpty (pySplitlines text) else some t
       | none => findFirstNonEmpty (pySplitlines text)).getD [] := rfl

theorem extract_snd (text : List Char) :
    (extract_title_and_description text).2 =
      (findDesc (pySplitParas (pyStrip text))).getD [] := rfl

theorem headerTitle_subset (l : List Char) : headerTitle l ⊆ l := by
  intro c hc
  unfold headerTitle at hc
  have h1 := pyStrip_subset hc
  exact (List.dropWhile_sublist _).subset ((List.dropWhile_sublist _).subset h1)

theorem extract_fst_none {text : List Char}
    (hf : findTitle1 (pySplitlines text) = none) :
    (extract_title_and_description text).1 =
      (findFirstNonEmpty (pySplitlines text)).getD [] := by
  rw [extract_fst, hf]

theorem extract_fst_some_nil {text : List Char}
    (hf : findTitle1 (pySplitlines text) = some []) :
    (extract_title_and_description text).1 =
      (findFirstNonEmpty (pySplitlines text)).getD [] := by
  rw [extract_fst, hf]
  rfl

theorem extract_fst_some {text t : List Char}
    (hf : findTitle1 (pySplitlines text) = some t) (ht : t ≠ []) :
    (extract_title_and_description text).1 = t := by
  rw [extract_fst, hf]
  show (if t = [] then findFirstNonEmpty (pySplitlines text)
    else some t).getD [] = t
  rw [if_neg ht]
  rfl

/-! ## The claims -/

/-- C5: for the empty input text, and more generally any text with no
non-empty line, `extract_title_and_description` returns `("", "")`. -/
theorem C5_empty_input (text : List Char)
    (h : ∀ line ∈ pySplitlines text, pyStrip line = []) :
    extract_title_and_description text = ([], []) := by
  have hws : ∀ c ∈ text, isPyWs c = true := splitlines_all_ws h
  have hstrip : pyStrip text = [] := pyStrip_eq_nil_iff.mpr hws
  have ht1 : findTitle1 (pySplitlines text) = none := by
    apply findTitle1_eq_none
    intro line hl
    rw [h line hl]
    rfl
  have hfind : (pySplitlines text).find? (fun x => !(pyStrip x).isEmpty) =
      none := by
    apply List.find?_eq_none.mpr
    intro x hx
    rw [h x hx]
    simp
  have hfne : findFirstNonEmpty (pySplitlines text) = none := by
    rw [findFirstNonEmpty_eq_find, hfind]
    rfl
  have hdesc : (extract_title_and_description text).2 = [] := by
    rw [extract_snd, hstrip]
    rfl
  have htitle : (extract_title_and_description text).1 = [] := by
    rw [extract_fst_none ht1, hfne]
    rfl
  cases he : extract_title_and_description text with
  | mk a b =>
    rw [he] at htitle hdesc
    have ha : a = [] := htitle
    have hb : b = [] := hdesc
    rw [ha, hb]

/-- C5 witness: the empty text yields `("", "")`. -/
theorem C5_empty_input_witness : extract_title_and_description [] = ([], []) :=
  C5_empty_input [] (by intro line hl; cases hl)

/-- C8: on every input the extractor terminates with a pair of strings; in
this embedding it is a total function into pairs. -/
theorem C8_no_exception (text : List Char) :
    ∃ t d, extract_title_and_description text = (t, d) :=
  ⟨(extract_title_and_description text).1,
   (extract_title_and_description text).2, rfl⟩

/-- C10: both components of the result contain no newline character and
are equal to their own stripped form. -/
theorem C10_shape (text : List Char) :
    '\n' ∉ (extract_title_and_description text).1 ∧
    '\n' ∉ (extract_title_and_description text).2 ∧
    pyStrip (extract_title_and_description text).1 =
      (extract_title_and_description text).1 ∧
    pyStrip (extract_title_and_description text).2 =
      (extract_title_and_description text).2 := by
  have hfne : ∀ w, findFirstNonEmpty (pySplitlines text) = w →
      (w.getD [] = [] ∨
        ∃ line ∈ pySplitlines text, w.getD [] = pyStrip line) := by
    intro w hw
    cases w with
    | none => left; rfl
    | some s =>
      rcases findFirstNonEmpty_mem hw with ⟨line, hl, hs⟩
      right
      exact ⟨line, hl, by rw [hs]; rfl⟩
  have htitle : (extract_title_and_description text).1 = [] ∨
      ∃ line ∈ pySplitlines text,
        (extract_title_and_description text).1 = headerTitle (pyStrip line) ∨
        (extract_title_and_description text).1 = pyStrip line := by
    cases hf : findTitle1 (pySplitlines text) with
    | none =>
      rw [extract_fst_none hf]
      rcases hfne _ rfl with h | ⟨line, hl, h⟩
      · left; exact h
      · right; exact ⟨line, hl, Or.inr h⟩
    | some t =>
      by_cases ht : t = []
      · subst ht
        rw [extract_fst_some_nil hf]
        rcases hfne _ rfl with h | ⟨line, hl, h⟩
        · left; exact h
        · right; exact ⟨line, hl, Or.inr h⟩
      · rw [extract_fst_some hf ht]
        rcases findTitle1_mem hf with ⟨line, hl, _, hts⟩
        right
        exact ⟨line, hl, Or.inl hts⟩
  have hdesc : (extract_title_and_description text).2 = [] ∨
      ∃ p, (extract_title_and_description text).2 =
        pyStrip ((pyStrip p).map replNl) := by
    rw [extract_snd]
    cases hd : findDesc (pySplitParas (pyStrip text)) with
    | none => left; rfl
    | some d =>
      rcases findDesc_mem hd with ⟨p, _, _, _, hdp⟩
      right
      exact ⟨p, by rw [hdp]; rfl⟩
  refine ⟨?_, ?_, ?_, ?_⟩
  · rcases htitle with h | ⟨line, hl, h | h⟩
    · rw [h]; simp
    · rw [h]
      intro hmem
      have h1 : '\n' ∈ pyStrip line := headerTitle_subset _ hmem
      have h2 : '\n' ∈ line := pyStrip_subset h1
      have := splitlines_no_boundary hl h2
      rw [nl_boundary] at this
      cases this
    · rw [h]
      intro hmem
      have h2 : '\n' ∈ line := pyStrip_subset hmem
      have := splitlines_no_boundary hl h2
      rw [nl_boundary] at this
      cases this
  · rcases hdesc with h | ⟨p, h⟩
    · rw [h]; simp
    · rw [h]
      intro hmem
      exact nl_not_mem_map_replNl _ (pyStrip_subset hmem)
  · rcases htitle with h | ⟨line, hl, h | h⟩
    · rw [h]; rfl
    · rw [h]; exact pyStrip_idem _
    · rw [h]; exact pyStrip_idem _
  · rcases hdesc with h | ⟨p, h⟩
    · rw [h]; rfl
    · rw [h]; exact pyStrip_idem _

/-- C1 counterexample: for the text `"#"` the first stripped non-empty line
is `"#"` and starts with `'#'`, the claim's value — that line with its
leading `'#'` markers and following whitespace removed — is `""`, but the
extractor returns `"#"` (the empty header title is falsy in Python, so the
code falls back to the first non-empty line). -/
theorem C1_counterexample :
    (pySplitlines ['#']).find? (fun x => !(pyStrip x).isEmpty) =
        some ['#'] ∧
      startsWithHash (pyStrip ['#']) = true ∧
      headerTitle (pyStrip ['#']) = [] ∧
      (extract_title_and_description ['#']).1 = ['#'] ∧
      (extract_title_and_description ['#']).1 ≠ headerTitle (pyStrip ['#']) :=
  by decide

/-- C1 amended: if the first stripped non-empty line starts with `'#'` and
removing its leading `'#'` markers and the following whitespace leaves a
non-empty string, then that string is the returned title. -/
theorem C1_header_title (text l : List Char)
    (h1 : (pySplitlines text).find? (fun x => !(pyStrip x).isEmpty) = some l)
    (h2 : startsWithHash (pyStrip l) = true)
    (h3 : headerTitle (pyStrip l) ≠ []) :
    (extract_title_and_description text).1 = headerTitle (pyStrip l) := by
  have hf := findTitle1_of_first h1 h2
  exact extract_fst_some hf h3

/-- C1 witness: `"# Hi"` has header title `"Hi"`. -/
theorem C1_header_title_witness :
    (extract_title_and_description "# Hi".data).1 = "Hi".data := by
  have h := C1_header_title "# Hi".data "# Hi".data (by decide) (by decide)
    (by decide)
  rw [h]
  decide

/-- C4: when no line of the text is a header line (no line whose stripped
form starts with `'#'`) and some line is non-empty, the title is the first
non-empty line, stripped. -/
theorem C4_fallback_title (text l : List Char)
    (h1 : ∀ line ∈ pySplitlines text, startsWithHash (pyStrip line) = false)
    (h2 : (pySplitlines text).find? (fun x => !(pyStrip x).isEmpty) = some l) :
    (extract_title_and_description text).1 = pyStrip l := by
  have ht := findTitle1_eq_none h1
  rw [extract_fst_none ht, findFirstNonEmpty_eq_find, h2]
  rfl

/-- C4 witness: `"hello"` has title `"hello"`. -/
theorem C4_fallback_title_witness :
    (extract_title_and_description "hello".data).1 = "hello".data := by
  have h := C4_fallback_title "hello".data "hello".data (by decide) (by decide)
  rw [h]
  decide

/-- C9: when the first header line strips to the empty title (it consists of
`'#'` markers followed only by whitespace), the extractor falls back to the
first non-empty line, stripped; in particular the returned title can itself
contain `'#'`, as the text `"#"` shows. -/
theorem C9_empty_header_fallback :
    (∀ text, findTitle1 (pySplitlines text) = some [] →
      (extract_title_and_description text).1 =
        (((pySplitlines text).find?
          (fun x => !(pyStrip x).isEmpty)).map pyStrip).getD []) ∧
    (extract_title_and_description ['#']).1 = ['#'] := by
  constructor
  · intro text hf
    rw [extract_fst_some_nil hf, findFirstNonEmpty_eq_find]
  · decide

/-- C9 witness: in `"x\n#\ny"` the header line `"#"` strips to the empty
title and the extractor falls back to `"x"`. -/
theorem C9_empty_header_fallback_witness :
    (extract_title_and_description "x\n#\ny".data).1 = "x".data := by
  have h := C9_empty_header_fallback.1 "x\n#\ny".data (by decide)
  rw [h]
  decide

/-- C2: the description is exactly the specification's value `descSpec` —
the first paragraph of the blank-line split of the trimmed text that does
not begin with a header marker, with internal newlines replaced by single
spaces and surrounding whitespace trimmed, or `""` when no paragraph
qualifies — and the description never starts with `'#'`. -/
theorem C2_description (text : List Char) :
    (extract_title_and_description text).2 = descSpec text ∧
    startsWithHash (extract_title_and_description text).2 = false := by
  by_cases hs : pyStrip text = []
  · constructor
    · rw [extract_snd]
      unfold descSpec
      rw [hs]
      rfl
    · rw [extract_snd, hs]
      rfl
  · have hps := paras_strip hs
    have hfd := findDesc_eq hps
    constructor
    · rw [extract_snd, hfd]
      unfold descSpec
      cases hfind : (pySplitParas (pyStrip text)).find?
          (fun p => !startsWithHash (pyStrip p)) with
      | none => rfl
      | some p => rfl
    · rw [extract_snd, hfd]
      cases hfind : (pySplitParas (pyStrip text)).find?
          (fun p => !startsWithHash (pyStrip p)) with
      | none => rfl
      | some p =>
        have hpred := List.find?_some hfind
        have hpmem := List.mem_of_find?_eq_some hfind
        have hpne := hps p hpmem
        show startsWithHash (pyStrip (p.map replNl)) = false
        rw [pyStrip_map_replNl]
        cases hq : pyStrip p with
        | nil => exact absurd hq hpne
        | cons c r =>
          have hc : ¬ c = '#' := by
            intro hc
            rw [hq, hc] at hpred
            simp [startsWithHash] at hpred
          show startsWithHash (replNl c :: r.map replNl) = false
          show decide (replNl c = '#') = false
          unfold replNl
          by_cases hcn : c = '\n'
          · rw [if_pos hcn]
            decide
          · rw [if_neg hcn]
            exact decide_eq_false hc

theorem entryRecord_inv {name : List Char} {e : FileEntry} {r : Record}
    (h : entryRecord name e = some r) :
    e.isDir = false ∧ e.content.isSome = true := by
  unfold entryRecord at h
  by_cases hd : e.isDir
  · rw [if_pos hd] at h
    cases h
  · rw [if_neg hd] at h
    cases hc : e.content with
    | none => rw [hc] at h; cases h
    | some text =>
      refine ⟨by simpa using hd, rfl⟩

/-- C3: the items of a run do not depend on the timestamp — two runs over
the same tree produce identical items; the items are the three section scans
concatenated in declared order (`prompts`, `toolsets`, `chatmodes`); and
within each section the records are in sorted path order. -/
theorem C3_deterministic_order (fs : SectionsFS) (t1 t2 : List Char) :
    (mainScan fs t1).items = (mainScan fs t2).items ∧
    (mainScan fs t1).items =
      scan_section "prompts".data fs.prompts ++
      scan_section "toolsets".data fs.toolsets ++
      scan_section "chatmodes".data fs.chatmodes ∧
    ∀ name dir, ((scan_section name dir).map Record.path).Pairwise
      (fun a b => pathLe a b = true) := by
  refine ⟨rfl, rfl, ?_⟩
  intro name dir
  cases dir with
  | none =>
    show (([] : List Record).map Record.path).Pairwise _
    simp
  | some entries =>
    have hsorted : List.Sorted entryLe (entries.insertionSort entryLe) :=
      @List.sorted_insertionSort _ entryLe _
        ⟨fun a b => pathLe_total a.path b.path⟩
        ⟨fun a b c hab hbc => pathLe_trans a.path b.path c.path hab hbc⟩
        entries
    show (((entries.insertionSort entryLe).filterMap
      (entryRecord name)).map Record.path).Pairwise _
    rw [List.pairwise_map, List.pairwise_filterMap]
    refine hsorted.imp ?_
    intro e1 e2 h12 r1 hr1 r2 hr2
    rw [entryRecord_path hr1, entryRecord_path hr2]
    exact h12

/-- C6: a section whose directory does not exist contributes zero records
and the run proceeds with the remaining sections. -/
theorem C6_missing_section :
    (∀ name, scan_section name none = []) ∧
    (∀ (fs : SectionsFS) (t : List Char),
      (mainScan ⟨none, fs.toolsets, fs.chatmodes⟩ t).items =
      scan_section "toolsets".data fs.toolsets ++
      scan_section "chatmodes".data fs.chatmodes) ∧
    (∀ (fs : SectionsFS) (t : List Char),
      (mainScan ⟨fs.prompts, none, fs.chatmodes⟩ t).items =
      scan_section "prompts".data fs.prompts ++
      scan_section "chatmodes".data fs.chatmodes) ∧
    (∀ (fs : SectionsFS) (t : List Char),
      (mainScan ⟨fs.prompts, fs.toolsets, none⟩ t).items =
      scan_section "prompts".data fs.prompts ++
      scan_section "toolsets".data fs.toolsets) := by
  have hnone : ∀ name, scan_section name none = [] := fun name => rfl
  refine ⟨hnone, fun fs t => ?_, fun fs t => ?_, fun fs t => ?_⟩
  · show scan_section "prompts".data none ++
      scan_section "toolsets".data fs.toolsets ++
      scan_section "chatmodes".data fs.chatmodes = _
    rw [hnone]
    rfl
  · show scan_section "prompts".data fs.prompts ++
      scan_section "toolsets".data none ++
      scan_section "chatmodes".data fs.chatmodes = _
    rw [hnone]
    simp
  · show scan_section "prompts".data fs.prompts ++
      scan_section "toolsets".data fs.toolsets ++
      scan_section "chatmodes".data none = _
    rw [hnone]
    simp

/-- C7: a file whose read fails yields no record and no error: every record
comes from a readable non-directory entry, every readable non-directory
entry still contributes its path, and the only trace of a skipped file is
the smaller record count. -/
theorem C7_unreadable_skipped (name : List Char) (entries : List FileEntry) :
    (∀ r ∈ scan_section name (some entries), ∃ e ∈ entries,
        e.isDir = false ∧ e.content.isSome = true ∧ r.path = e.path) ∧
    (∀ e ∈ entries, e.isDir = false → e.content.isSome = true →
        e.path ∈ (scan_section name (some entries)).map Record.path) ∧
    (scan_section name (some entries)).length =
      entries.countP (fun e => !e.isDir && e.content.isSome) := by
  refine ⟨?_, ?_, ?_⟩
  · intro r hr
    have hr2 : r ∈ (entries.insertionSort entryLe).filterMap
        (entryRecord name) := hr
    rcases List.mem_filterMap.mp hr2 with ⟨e, he, hre⟩
    rcases entryRecord_inv hre with ⟨hd, hc⟩
    exact ⟨e, (List.mem_insertionSort entryLe).mp he, hd, hc, entryRecord_path hre⟩
  · intro e he hd hc
    cases hct : e.content with
    | none => rw [hct] at hc; cases hc
    | some text =>
      have hrec := entryRecord_some_of name hd hct
      refine List.mem_map.mpr
        ⟨⟨e.path, name, baseName e.path,
          (extract_title_and_description text).1,
          (extract_title_and_description text).2⟩, ?_, rfl⟩
      have hmem : (⟨e.path, name, baseName e.path,
          (extract_title_and_description text).1,
          (extract_title_and_description text).2⟩ : Record) ∈
          (entries.insertionSort entryLe).filterMap (entryRecord name) :=
        List.mem_filterMap.mpr ⟨e, (List.mem_insertionSort entryLe).mpr he, hrec⟩
      exact hmem
  · show ((entries.insertionSort entryLe).filterMap
      (entryRecord name)).length = _
    rw [length_filterMap]
    rw [List.Perm.countP_eq _ (List.perm_insertionSort entryLe entries)]
    exact List.countP_congr fun e _ => by rw [entryRecord_isSome]

/-- C7 witness: with one readable file and one unreadable file, the readable
file's path is present and the count is 1. -/
theorem C7_unreadable_skipped_witness :
    ("a.md".data ∈ ((scan_section "prompts".data
        (some [⟨"a.md".data, false, some "x".data⟩,
               ⟨"b.bin".data, false, none⟩])).map Record.path)) ∧
    (scan_section "prompts".data
        (some [⟨"a.md".data, false, some "x".data⟩,
               ⟨"b.bin".data, false, none⟩])).length = 1 := by
  constructor
  · exact (C7_unreadable_skipped "prompts".data
      [⟨"a.md".data, false, some "x".data⟩,
       ⟨"b.bin".data, false, none⟩]).2.1
      ⟨"a.md".data, false, some "x".data⟩ (by decide) (by decide) (by decide)
  · rw [(C7_unreadable_skipped "prompts".data
      [⟨"a.md".data, false, some "x".data⟩,
       ⟨"b.bin".data, false, none⟩]).2.2]
    decide
